import Mathlib

/-!
Verification of the essence neural-network layer library.

The source consists of two Python files:
  * net/module.py      — module base class, reshape, activations (sigmoid,
                         linear, relu, softmax), drop, add_biases, matmul,
                         and a draft loss family (crossent, l2);
  * src/modules/losses.py — the authoritative loss family
                         (softmax_crossent, crossent, l2).

Python float arrays are modelled as real-valued matrices indexed by Fin;
a 2-D numpy array of shape [m, n] becomes a function Fin m → Fin n → ℝ.
A Python method that can raise (because it reads an attribute that was
never assigned, or operates on a None value) is modelled as returning an
Option, with none standing for the raised exception or a Python None
result.  Cached per-instance attributes that are only assigned by some
operations are modelled as Option-valued fields of an explicit state
structure, threaded in state-passing style.
-/

noncomputable section

namespace Essence

/-- A dense 2-D array of shape [m, n] holding floating-point values,
modelled over ℝ. -/
abbrev Mat (m n : ℕ) : Type := Fin m → Fin n → ℝ

/-- numpy x.transpose(). -/
def transposeM {m n : ℕ} (x : Mat m n) : Mat n m := fun i j => x j i

/-- numpy x.dot(w): matrix product. -/
def dotM {m n p : ℕ} (x : Mat m n) (w : Mat n p) : Mat m p :=
  fun i k => ∑ j, x i j * w j k

/-! ## matmul (net/module.py)

class matmul(Module):
    def forward(self, x):
        self._x = x
        w = self._slot.val('w')
        return x.dot(w)
    def _cal_grad(self, x, g):
        return x.transpose().dot(g)
    def backward(self, grad):
        self._slot.set_grad('w', self._cal_grad, self._x, grad)
        return grad.dot(self._slot.val('w').transpose())
-/

/-- Cached state of a matmul instance: the input cached by forward
(self._x), absent on a freshly constructed instance. -/
structure MatmulState (b n p : ℕ) where
  x : Option (Mat b n)

/-- A freshly constructed matmul instance: no forward has run, so the
attribute self._x does not exist. -/
def matmulInit (b n p : ℕ) : MatmulState b n p := ⟨none⟩

/-- matmul.forward: caches x, returns x.dot(w) where w is fetched from
the slot. -/
def matmul_forward {b n p : ℕ} (w : Mat n p) (x : Mat b n) :
    Mat b p × MatmulState b n p :=
  (dotM x w, ⟨some x⟩)

/-- matmul._cal_grad: x.transpose().dot(g), the function handed to
slot.set_grad for parameter w. -/
def matmul_cal_grad {b n p : ℕ} (x : Mat b n) (g : Mat b p) : Mat n p :=
  dotM (transposeM x) g

/-- matmul.backward: reports _cal_grad(self._x, grad) to the slot for w
and returns grad.dot(w.transpose()).  Reading self._x on a fresh
instance raises AttributeError, modelled as none.  The result pairs the
reported weight gradient with the returned input gradient. -/
def matmul_backward {b n p : ℕ} (w : Mat n p) (s : MatmulState b n p)
    (grad : Mat b p) : Option (Mat n p × Mat b n) :=
  match s.x with
  | none => none
  | some x => some (matmul_cal_grad x grad, dotM grad (transposeM w))

/-- The weight gradient the spec prescribes, written entrywise from the
words xᵗ·grad. -/
def weightGradSpec {b n p : ℕ} (x : Mat b n) (grad : Mat b p) : Mat n p :=
  fun i j => ∑ k, x k i * grad k j

/-- The input gradient the spec prescribes, written entrywise from the
words grad·wᵗ. -/
def inputGradSpec {b n p : ℕ} (grad : Mat b p) (w : Mat n p) : Mat b n :=
  fun i j => ∑ k, grad i k * w j k

/-- The literal 2×3 input of the spec's matmul gradient check. -/
def xC1 : Mat 2 3 := ![![1, 2, 3], ![4, 5, 6]]

/-- A literal 3×4 weight matrix for the matmul gradient check. -/
def wC1 : Mat 3 4 := ![![1, 0, 2, 1], ![0, 1, 1, 2], ![3, 1, 0, 1]]

/-- The all-ones 2×4 incoming gradient of the matmul gradient check. -/
def onesC1 : Mat 2 4 := fun _ _ => 1

/-- C1.  matmul.backward, run on the state cached by the most recent
forward on input x, reports the weight gradient xᵗ·grad to the slot and
returns grad·wᵗ; at the literal x of shape [2,3], w of shape [3,4] and
all-ones incoming gradient of shape [2,4], the reported weight gradient
is xᵗ·ones (each row j of the result is the j-th column-sum of x
replicated) and the returned input gradient is ones·wᵗ (row sums of w). -/
theorem C1_matmul_backward :
    (∀ (b n p : ℕ) (w : Mat n p) (x : Mat b n) (grad : Mat b p),
      matmul_backward w (matmul_forward w x).2 grad
        = some (weightGradSpec x grad, inputGradSpec grad w)) ∧
    matmul_backward wC1 (matmul_forward wC1 xC1).2 onesC1
      = some (![![5, 5, 5, 5], ![7, 7, 7, 7], ![9, 9, 9, 9]],
              ![![4, 4, 5], ![4, 4, 5]]) := by
  have hgen : ∀ (b n p : ℕ) (w : Mat n p) (x : Mat b n) (grad : Mat b p),
      matmul_backward w (matmul_forward w x).2 grad
        = some (weightGradSpec x grad, inputGradSpec grad w) := by
    intro b n p w x grad
    rfl
  refine ⟨hgen, ?_⟩
  rw [hgen]
  refine congrArg some (Prod.ext ?_ ?_) <;>
    funext i j <;> fin_cases i <;> fin_cases j <;>
    simp [weightGradSpec, inputGradSpec, xC1, wC1, onesC1,
      Fin.sum_univ_succ] <;> norm_num

/-! ## add_biases (net/module.py)

class add_biases(Module):
    def forward(self, x):
        b = self._slot.val('b')
        return x + b
    def backward(self, grad):
        self._slot.set_grad('b', grad.sum, -1)
        return grad

add_biases caches nothing: backward reads no per-instance attribute, so
it succeeds even on a freshly constructed instance.  The gradient
function handed to the slot is the bound method grad.sum applied to the
single argument -1, i.e. the reduction of grad over its LAST axis.
-/

/-- add_biases.forward: x + b with the bias vector b (fetched from the
slot) broadcast across the batch axis. -/
def add_biases_forward {m n : ℕ} (b : Fin n → ℝ) (x : Mat m n) : Mat m n :=
  fun i j => x i j + b j

/-- add_biases.backward: reports grad.sum(-1) — the reduction of grad
over its last (feature) axis, one value per batch row — to the slot for
parameter b, and returns grad unchanged.  The result pairs the reported
bias gradient with the returned input gradient. -/
def add_biases_backward {m n : ℕ} (grad : Mat m n) : (Fin m → ℝ) × Mat m n :=
  (fun i => ∑ j, grad i j, grad)

/-- The bias gradient the spec prescribes: the sum of grad reduced over
axis 0 (the batch axis), one value per feature column. -/
def biasGradSpec {m n : ℕ} (grad : Mat m n) : Fin n → ℝ :=
  fun j => ∑ i, grad i j

/-- A concrete 2×3 incoming gradient. -/
def gradC2 : Mat 2 3 := ![![1, 2, 3], ![4, 5, 6]]

/-- A concrete 2×2 incoming gradient (square, so the two reductions have
the same shape and can be compared directly). -/
def gradC2sq : Mat 2 2 := ![![1, 2], ![3, 4]]

/-- C2.  The code reduces the incoming gradient over axis -1 (the
feature axis), not over axis 0 (the batch axis) as the spec prescribes:
on the 2×3 gradient [[1,2,3],[4,5,6]] the code reports [6,15] (one value
per batch row) while the spec's axis-0 sum is [5,7,9] (one value per
feature); on the square gradient [[1,2],[3,4]] the code reports [3,7],
which differs from the spec's [4,6].  The input gradient is returned
unchanged, as claimed. -/
theorem C2_add_biases_backward_axis :
    add_biases_backward gradC2 = (![6, 15], gradC2) ∧
    biasGradSpec gradC2 = ![5, 7, 9] ∧
    (add_biases_backward gradC2sq).1 ≠ biasGradSpec gradC2sq ∧
    (∀ (m n : ℕ) (grad : Mat m n), (add_biases_backward grad).2 = grad) := by
  refine ⟨?_, ?_, ?_, fun m n grad => rfl⟩
  · refine Prod.ext ?_ rfl
    funext i
    fin_cases i <;>
      simp [add_biases_backward, gradC2, Fin.sum_univ_succ] <;> norm_num
  · funext j
    fin_cases j <;>
      simp [biasGradSpec, gradC2, Fin.sum_univ_succ] <;> norm_num
  · intro h
    have h0 := congrFun h 0
    simp [add_biases_backward, biasGradSpec, gradC2sq,
      Fin.sum_univ_succ] at h0

/-! ## softmax (net/module.py)

class softmax(Activate):
    def transform(self, x):
        row_max = x.max(1, keepdims = True)
        e_x = np.exp(x - row_max)
        e_sum = e_x.sum(1, keepdims = True)
        self.activation = np.divide(e_x, e_sum)
    def backward(self, grad):
        a = self.activation
        m = np.multiply(grad, a)
        g = grad - m.sum(1, keepdims = True)
        return np.multiply(g, a)

numpy's max over axis 1 requires at least one column, hence the matrices
here have n+1 columns.
-/

/-- numpy x.max(1, keepdims=True): the maximum of row i of x. -/
def rowMax {m n : ℕ} (x : Mat m (n + 1)) (i : Fin m) : ℝ :=
  Finset.univ.sup' Finset.univ_nonempty (x i)

/-- softmax.transform: exp(x - row_max) normalised by its row sum. -/
def softmax_transform {m n : ℕ} (x : Mat m (n + 1)) : Mat m (n + 1) :=
  fun i j => Real.exp (x i j - rowMax x i) / ∑ k, Real.exp (x i k - rowMax x i)

/-- softmax.backward on a cached activation a: (grad - (grad ⊙ a).sum(1)) ⊙ a,
rows treated independently.  On a fresh instance the Activate scaffolding
has set self.activation = None and numpy arithmetic on None raises,
modelled as none. -/
def softmax_backward {m n : ℕ} (a : Option (Mat m n)) (grad : Mat m n) :
    Option (Mat m n) :=
  match a with
  | some act => some (fun i j => (grad i j - ∑ k, grad i k * act i k) * act i j)
  | none => none

/-- The mathematical row-wise softmax without the max-subtraction step:
exp(x) normalised by its row sum. -/
def softmaxR {m n : ℕ} (x : Mat m n) : Mat m n :=
  fun i j => Real.exp (x i j) / ∑ k, Real.exp (x i k)

/-- x with the constant a added to every entry of row r and all other
rows left unchanged. -/
def addToRow {m n : ℕ} (x : Mat m n) (r : Fin m) (a : ℝ) : Mat m n :=
  fun i j => if i = r then x i j + a else x i j

lemma sumExp_pos {n : ℕ} (v : Fin (n + 1) → ℝ) : 0 < ∑ k, Real.exp (v k) :=
  Finset.sum_pos (fun _k _ => Real.exp_pos _) Finset.univ_nonempty

/-- Softmax is invariant under adding a per-row constant: the factor
exp(d i) cancels between numerator and denominator. -/
lemma softmaxR_rowShift {m n : ℕ} (x : Mat m n) (d : Fin m → ℝ) :
    softmaxR (fun i j => x i j + d i) = softmaxR x := by
  funext i j
  simp only [softmaxR, Real.exp_add]
  rw [← Finset.sum_mul, mul_div_mul_right _ _ (Real.exp_ne_zero (d i))]

/-- The code's softmax (max subtracted per row before exponentiating)
computes exactly the mathematical row-wise softmax. -/
lemma softmax_transform_eq {m n : ℕ} (x : Mat m (n + 1)) :
    softmax_transform x = softmaxR x := by
  have h := softmaxR_rowShift x (fun i => -(rowMax x i))
  calc softmax_transform x
      = softmaxR (fun i j => x i j + -(rowMax x i)) := by
        funext i j; simp only [softmax_transform, softmaxR, sub_eq_add_neg]
    _ = softmaxR x := h

/-- C7.  Every row of softmax.forward output sums to 1, and adding a
constant c to every entry of one row of the input leaves the output
identical (shift invariance from the row-max subtraction). -/
theorem C7_softmax_rowsum_shift :
    (∀ (m n : ℕ) (x : Mat m (n + 1)) (i : Fin m),
      ∑ j, softmax_transform x i j = 1) ∧
    (∀ (m n : ℕ) (x : Mat m (n + 1)) (r : Fin m) (c : ℝ),
      softmax_transform (addToRow x r c) = softmax_transform x) := by
  constructor
  · intro m n x i
    rw [softmax_transform_eq]
    simp only [softmaxR]
    rw [← Finset.sum_div, div_self (ne_of_gt (sumExp_pos (x i)))]
  · intro m n x r c
    have hrow : addToRow x r c = fun i j => x i j + (if i = r then c else 0) := by
      funext i j
      simp only [addToRow]
      split <;> simp
    rw [hrow, softmax_transform_eq, softmax_transform_eq,
      softmaxR_rowShift x (fun i => if i = r then c else 0)]

/-! ## Loss family (src/modules/losses.py — the authoritative one)

class Loss(Module):
    def __init__(self, _, pred_shape, truth_shape):
        self._out_shape = ()
    def forward(self, x, truth):
        self._t = truth
        return self._cal_loss(x)
    def backward(self, grad):
        return self._cal_grad(grad), None

Construction assigns only _out_shape; the cached attributes that
_cal_grad reads (_t, _x, _log_soft, _diff) are assigned only by forward,
and _batch by nothing at all.  Reading an unassigned attribute raises
AttributeError, modelled by Option-valued state fields and a none
result.
-/

/-! ### softmax_crossent

class softmax_crossent(Loss):
    def _cal_loss(self, x):
        x -= x.max(1, keepdims = True)
        sum_e_x = np.exp(x).sum(1, keepdims = True)
        self._log_soft = x - np.log(sum_e_x)
        crossed = - np.multiply(self._t, self._log_soft)
        return crossed.sum(1).mean()
    def _cal_grad(self, grad):
        scalar = 1. / self._t.shape[0] * grad
        return scalar * (np.exp(self._log_soft) - self._t)
-/

/-- The in-place statement x -= x.max(1, keepdims=True): the buffer the
caller's x refers to holds these values after softmax_crossent._cal_loss
runs. -/
def sc_shift {m n : ℕ} (x : Mat m (n + 1)) : Mat m (n + 1) :=
  fun i j => x i j - rowMax x i

/-- self._log_soft: the shifted logits minus the log of their row-wise
exponential sum. -/
def sc_logsoft {m n : ℕ} (x : Mat m (n + 1)) : Mat m (n + 1) :=
  fun i j => sc_shift x i j - Real.log (∑ k, Real.exp (sc_shift x i k))

/-- Cached attributes of a softmax_crossent instance: _t and _log_soft,
both assigned only by forward. -/
structure ScState (b c : ℕ) where
  t : Option (Mat b c)
  log_soft : Option (Mat b c)

/-- A freshly constructed softmax_crossent instance. -/
def scInit (b c : ℕ) : ScState b c := ⟨none, none⟩

/-- softmax_crossent._cal_loss value: (- t ⊙ _log_soft).sum(1).mean(). -/
def sc_cal_loss {b c : ℕ} (t x : Mat b (c + 1)) : ℝ :=
  (∑ i, ∑ j, -(t i j * sc_logsoft x i j)) / b

/-- Loss.forward for softmax_crossent: stores the target, computes and
returns the loss; because _cal_loss subtracts the row max from x in
place, the third component records the values the caller's x buffer
holds after the call. -/
def sc_forward {b c : ℕ} (_s : ScState b (c + 1)) (x t : Mat b (c + 1)) :
    ℝ × ScState b (c + 1) × Mat b (c + 1) :=
  (sc_cal_loss t x, ⟨some t, some (sc_logsoft x)⟩, sc_shift x)

/-- softmax_crossent._cal_grad: (1/t.shape[0] * grad) * (exp(_log_soft) - t),
reading the attributes _t and _log_soft assigned by forward. -/
def sc_cal_grad {b c : ℕ} (s : ScState b c) (grad : ℝ) : Option (Mat b c) :=
  match s.t, s.log_soft with
  | some t, some ls =>
      some (fun i j => 1 / (b : ℝ) * grad * (Real.exp (ls i j) - t i j))
  | _, _ => none

/-- The spec's log-sum-exp of row i of the logits. -/
def logsumexp {m n : ℕ} (x : Mat m (n + 1)) (i : Fin m) : ℝ :=
  Real.log (∑ k, Real.exp (x i k))

/-- The loss the spec prescribes: mean over the batch of the row-sum of
-t ⊙ (x - logsumexp(x)). -/
def sc_loss_spec {b c : ℕ} (t x : Mat b (c + 1)) : ℝ :=
  (∑ i, ∑ j, -(t i j * (x i j - logsumexp x i))) / b

/-- The backward gradient the spec prescribes: g · (softmax(x) − t) / batch. -/
def sc_grad_spec {b c : ℕ} (t x : Mat b (c + 1)) (g : ℝ) : Mat b (c + 1) :=
  fun i j => g * (softmaxR x i j - t i j) / b

/-- Subtracting the row max before exponentiating does not change the
log-softmax: _log_soft equals x - logsumexp(x) entrywise. -/
lemma sc_logsoft_eq {m n : ℕ} (x : Mat m (n + 1)) (i : Fin m) (j : Fin (n + 1)) :
    sc_logsoft x i j = x i j - logsumexp x i := by
  have hpos : 0 < ∑ k, Real.exp (x i k) := sumExp_pos (x i)
  have hexp : ∀ k : Fin (n + 1), Real.exp (sc_shift x i k)
      = Real.exp (x i k) * Real.exp (-(rowMax x i)) := by
    intro k
    rw [← Real.exp_add, sc_shift, sub_eq_add_neg]
  simp only [sc_logsoft]
  rw [Finset.sum_congr rfl (fun k _ => hexp k), ← Finset.sum_mul,
    Real.log_mul (ne_of_gt hpos) (Real.exp_ne_zero _), Real.log_exp]
  simp only [sc_shift, logsumexp]
  ring

/-- Exponentiating the cached log-softmax recovers the softmax of the
original logits. -/
lemma exp_sc_logsoft {m n : ℕ} (x : Mat m (n + 1)) (i : Fin m) (j : Fin (n + 1)) :
    Real.exp (sc_logsoft x i j) = softmaxR x i j := by
  rw [sc_logsoft_eq, Real.exp_sub]
  simp only [logsumexp]
  rw [Real.exp_log (sumExp_pos (x i))]
  rfl

/-- The spec's example logits for softmax_crossent. -/
def xC3 : Mat 1 2 := ![![0, 0]]

/-- The spec's example target for softmax_crossent. -/
def tC3 : Mat 1 2 := ![![1, 0]]

/-- C3.  softmax_crossent computes the claimed stable loss — mean over
the batch of the row-sum of -t ⊙ (x − logsumexp(x)) — and its backward
returns g · (softmax(x) − t) / batch; at logits [[0,0]] with target
[[1,0]] the loss is log 2 and the backward gradient at incoming
gradient 1 is [[-1/2, 1/2]]. -/
theorem C3_softmax_crossent :
    (∀ (b c : ℕ) (x t : Mat b (c + 1)) (g : ℝ),
      (sc_forward (scInit b (c + 1)) x t).1 = sc_loss_spec t x ∧
      sc_cal_grad (sc_forward (scInit b (c + 1)) x t).2.1 g
        = some (sc_grad_spec t x g)) ∧
    (sc_forward (scInit 1 2) xC3 tC3).1 = Real.log 2 ∧
    sc_cal_grad (sc_forward (scInit 1 2) xC3 tC3).2.1 1
      = some ![![-(1 / 2), 1 / 2]] := by
  have hloss : ∀ (b c : ℕ) (x t : Mat b (c + 1)),
      (sc_forward (scInit b (c + 1)) x t).1 = sc_loss_spec t x := by
    intro b c x t
    simp only [sc_forward, sc_cal_loss, sc_loss_spec]
    congr 1
    refine Finset.sum_congr rfl fun i _ => Finset.sum_congr rfl fun j _ => ?_
    rw [sc_logsoft_eq]
  have hgrad : ∀ (b c : ℕ) (x t : Mat b (c + 1)) (g : ℝ),
      sc_cal_grad (sc_forward (scInit b (c + 1)) x t).2.1 g
        = some (sc_grad_spec t x g) := by
    intro b c x t g
    simp only [sc_forward, sc_cal_grad]
    refine congrArg some (funext fun i => funext fun j => ?_)
    rw [exp_sc_logsoft]
    simp only [sc_grad_spec]
    ring
  refine ⟨fun b c x t g => ⟨hloss b c x t, hgrad b c x t g⟩, ?_, ?_⟩
  · rw [hloss]
    simp [sc_loss_spec, logsumexp, xC3, tC3, Fin.sum_univ_succ, Real.exp_zero]
    rw [show (1 : ℝ) + 1 = 2 by norm_num]
  · rw [hgrad]
    refine congrArg some (funext fun i => funext fun j => ?_)
    fin_cases i <;> fin_cases j <;>
      simp [sc_grad_spec, softmaxR, xC3, tC3, Fin.sum_univ_succ,
        Real.exp_zero] <;> norm_num

/-! ### crossent

class crossent(Loss):
    def _cal_loss(self, x):
        self._x = x
        crossed = - np.multiply(self._t, np.log(x))
        return crossed.sum(1).mean()
    def _cal_grad(self, grad):
        dLdp = - np.divide(self._t, self._x + 1e-20)
        return 1./self._batch * grad * dLdp
-/

/-- Cached attributes of a crossent instance: _t and _x are assigned by
forward; _batch is read by _cal_grad but assigned by no operation of the
class. -/
structure CrossentState (b c : ℕ) where
  t : Option (Mat b c)
  x : Option (Mat b c)
  batch : Option ℕ

/-- A freshly constructed crossent instance: __init__ assigns only
_out_shape, so every cached attribute is absent. -/
def crossentInit (b c : ℕ) : CrossentState b c := ⟨none, none, none⟩

/-- crossent._cal_loss value: (- t ⊙ log x).sum(1).mean(). -/
def crossent_cal_loss {b c : ℕ} (t x : Mat b c) : ℝ :=
  (∑ i, ∑ j, -(t i j * Real.log (x i j))) / b

/-- Loss.forward for crossent: assigns _t and (inside _cal_loss) _x, and
returns the loss.  It does not touch _batch. -/
def crossent_forward {b c : ℕ} (s : CrossentState b c) (x t : Mat b c) :
    ℝ × CrossentState b c :=
  (crossent_cal_loss t x, ⟨some t, some x, s.batch⟩)

/-- crossent._cal_grad: 1/self._batch * grad * (-(t / (x + 1e-20))).
Reading any of the attributes _t, _x or _batch when absent raises
AttributeError, modelled as none. -/
def crossent_cal_grad {b c : ℕ} (s : CrossentState b c) (grad : ℝ) :
    Option (Mat b c) :=
  match s.t, s.x, s.batch with
  | some t, some x, some batch =>
      some (fun i j => 1 / (batch : ℝ) * grad * (-(t i j / (x i j + 1e-20))))
  | _, _, _ => none

/-- The operations available on a crossent instance after construction. -/
inductive CrossentOp (b c : ℕ) : Type
  | forwardOp (x t : Mat b c) : CrossentOp b c
  | backwardOp (grad : ℝ) : CrossentOp b c

/-- One operation applied to the cached state: forward overwrites _t and
_x; backward computes a result without assigning any attribute. -/
def crossent_step {b c : ℕ} (s : CrossentState b c) :
    CrossentOp b c → CrossentState b c
  | CrossentOp.forwardOp x t => (crossent_forward s x t).2
  | CrossentOp.backwardOp _ => s

/-- The state of a crossent instance after an arbitrary sequence of
forward and backward calls on a freshly constructed instance. -/
def crossent_run {b c : ℕ} (ops : List (CrossentOp b c)) : CrossentState b c :=
  ops.foldl crossent_step (crossentInit b c)

/-- No operation of the crossent class ever assigns _batch. -/
lemma crossent_batch_invariant {b c : ℕ} (s : CrossentState b c)
    (ops : List (CrossentOp b c)) :
    (ops.foldl crossent_step s).batch = s.batch := by
  induction ops generalizing s with
  | nil => rfl
  | cons op rest ih =>
      rw [List.foldl_cons, ih]
      cases op <;> rfl

/-- C10.  On every execution path — any sequence of construction,
forward and backward calls — the attribute _batch that
crossent._cal_grad divides by is still unassigned, so backward can never
produce a gradient: it always fails (AttributeError, modelled none). -/
theorem C10_crossent_batch_never_set :
    ∀ (b c : ℕ) (ops : List (CrossentOp b c)) (grad : ℝ),
      crossent_cal_grad (crossent_run ops) grad = none := by
  intro b c ops grad
  have hb : (crossent_run ops).batch = none :=
    crossent_batch_invariant (crossentInit b c) ops
  rcases hrun : crossent_run ops with ⟨topt, xopt, bopt⟩
  rw [hrun] at hb
  have hb' : bopt = none := hb
  subst hb'
  cases topt <;> cases xopt <;> rfl

/-- A concrete probability input for crossent. -/
def xC4 : Mat 1 2 := ![![1 / 2, 1 / 2]]

/-- A concrete one-hot target for crossent. -/
def tC4 : Mat 1 2 := ![![1, 0]]

/-- C4.  The loss half of the claim holds — at x=[[1/2,1/2]],
t=[[1,0]] the crossent loss is log 2 — but backward cannot return the
claimed gradient: immediately after this forward call _batch is still
unassigned, so _cal_grad fails (none) instead of producing
-t/(x+1e-20)·g/batch. -/
theorem C4_crossent_backward_unavailable :
    (crossent_forward (crossentInit 1 2) xC4 tC4).1 = Real.log 2 ∧
    crossent_cal_grad (crossent_forward (crossentInit 1 2) xC4 tC4).2 1 = none := by
  constructor
  · simp [crossent_forward, crossent_cal_loss, xC4, tC4, Fin.sum_univ_succ]
  · rfl

/-! ### l2

class l2(Loss):
    def _cal_loss(self, x):
        self._diff = x - self._t
        return np.pow(self._diff, 2).mean()
    def _cal_grad(self, grad):
        return grad * self._diff
-/

/-- Cached attributes of an l2 instance: _t and _diff, assigned by
forward. -/
structure L2State (b c : ℕ) where
  t : Option (Mat b c)
  diff : Option (Mat b c)

/-- A freshly constructed l2 instance. -/
def l2Init (b c : ℕ) : L2State b c := ⟨none, none⟩

/-- l2._cal_loss value: np.pow(x - t, 2).mean(), the mean over all
b·c entries. -/
def l2_cal_loss {b c : ℕ} (t x : Mat b c) : ℝ :=
  (∑ i, ∑ j, (x i j - t i j) ^ 2) / (b * c)

/-- Loss.forward for l2: assigns _t and _diff = x - t and returns the
loss. -/
def l2_forward {b c : ℕ} (_s : L2State b c) (x t : Mat b c) :
    ℝ × L2State b c :=
  (l2_cal_loss t x, ⟨some t, some (fun i j => x i j - t i j)⟩)

/-- l2._cal_grad: grad * self._diff, reading the diff cached by forward;
none when the attribute is absent on a fresh instance. -/
def l2_cal_grad {b c : ℕ} (s : L2State b c) (grad : ℝ) : Option (Mat b c) :=
  match s.diff with
  | some d => some (fun i j => grad * d i j)
  | none => none

/-- A concrete l2 prediction. -/
def xC5 : Mat 1 1 := ![![2]]

/-- A concrete l2 target. -/
def tC5 : Mat 1 1 := ![![1]]

/-- C5 counterexample: at x=[[2]], t=[[1]] and incoming gradient 1,
l2 backward returns [[1]] — grad times the cached diff — and not the
claimed 2·(x−t)·g = [[2]]. -/
theorem C5_l2_counterexample :
    l2_cal_grad (l2_forward (l2Init 1 1) xC5 tC5).2 1
      ≠ some (fun i j => 2 * (xC5 i j - tC5 i j) * 1) := by
  intro h
  simp only [l2_forward, l2_cal_grad] at h
  have h2 := congrFun (congrFun (Option.some.inj h) 0) 0
  simp [xC5, tC5] at h2
  norm_num at h2

/-- C5 amended.  l2 computes loss = mean of (x−t)² and its backward
returns the cached diff scaled by the incoming gradient — without the
factor 2 the claim prescribes; the gradient is indeed computed from the
diff cached at forward time: it depends on the state only through the
_diff field.  Concretely, at x=[[2]], t=[[1]], g=1 backward yields
[[1]]. -/
theorem C5_l2_amended :
    (∀ (b c : ℕ) (x t : Mat b c) (g : ℝ),
      (l2_forward (l2Init b c) x t).1
          = (∑ i, ∑ j, (x i j - t i j) ^ 2) / (b * c) ∧
      l2_cal_grad (l2_forward (l2Init b c) x t).2 g
          = some (fun i j => g * (x i j - t i j))) ∧
    (∀ (b c : ℕ) (t1 t2 : Option (Mat b c)) (d : Option (Mat b c)) (g : ℝ),
      l2_cal_grad ⟨t1, d⟩ g = l2_cal_grad ⟨t2, d⟩ g) ∧
    l2_cal_grad (l2_forward (l2Init 1 1) xC5 tC5).2 1 = some ![![1]] := by
  refine ⟨fun b c x t g => ⟨rfl, rfl⟩, fun b c t1 t2 d g => rfl, ?_⟩
  simp only [l2_forward, l2_cal_grad]
  refine congrArg some (funext fun i => funext fun j => ?_)
  fin_cases i
  fin_cases j
  simp [xC5, tC5]
  norm_num

/-! ## The activation scaffolding and relu (net/module.py)

class Activate(Module):
    def _setup(self, *args, **kwargs):
        self.activation = None
    def forward(self, x):
        self.transform(x)
        return self.activation

class relu(Activate):
    def transform(self, x):
        self.activation = np.maximum(0., x)
    def partial(self):
        a = self.activation
        p = (a > 0.).astype(np.float32)
        return np.multiply(grad, p)

relu overrides transform but NOT backward, so relu.backward is the
inherited Module.backward, whose body is a bare pass: every call
returns Python None.  The masked-gradient formula sits in a method with
a different name that takes no gradient argument and whose body
references the undefined global name grad, so calling it raises
NameError unconditionally.
-/

/-- The cached activation of an Activate instance; Activate._setup
explicitly initialises it to None. -/
structure ActState (b c : ℕ) where
  activation : Option (Mat b c)

/-- A freshly constructed Activate (sigmoid/linear/relu/softmax)
instance: self.activation = None. -/
def activateInit (b c : ℕ) : ActState b c := ⟨none⟩

/-- relu.transform: np.maximum(0., x) element-wise. -/
def relu_transform {b c : ℕ} (x : Mat b c) : Mat b c :=
  fun i j => max 0 (x i j)

/-- Activate.forward for relu: runs transform (storing the activation)
and returns the stored activation. -/
def relu_forward {b c : ℕ} (_s : ActState b c) (x : Mat b c) :
    Mat b c × ActState b c :=
  (relu_transform x, ⟨some (relu_transform x)⟩)

/-- relu.backward is the inherited Module.backward, whose body is pass:
it ignores its argument and the cached state and returns Python None,
modelled as none. -/
def relu_backward {b c : ℕ} (_s : ActState b c) (_grad : Mat b c) :
    Option (Mat b c) :=
  none

/-- Follows the spec's words for the relu backward rule: grad where the
cached activation is greater than 0, else 0 element-wise. -/
def reluGradSpec {b c : ℕ} (a grad : Mat b c) : Mat b c :=
  fun i j => if 0 < a i j then grad i j else 0

/-- A concrete relu input with one negative and one positive entry. -/
def xC6 : Mat 1 2 := ![![-1, 2]]

/-- A concrete incoming gradient for relu. -/
def gradC6 : Mat 1 2 := ![![5, 7]]

/-- C6.  relu.forward does return max(0,x) element-wise and caches it
(at [[-1,2]] the output is [[0,2]]), but relu.backward returns no
gradient at all — the inherited no-op yields None — where the claim
prescribes the masked gradient [[0,7]] at incoming gradient [[5,7]]. -/
theorem C6_relu_backward_missing :
    (∀ (b c : ℕ) (s : ActState b c) (x : Mat b c),
      relu_forward s x = (relu_transform x, ⟨some (relu_transform x)⟩)) ∧
    (relu_forward (activateInit 1 2) xC6).1 = ![![0, 2]] ∧
    relu_backward (relu_forward (activateInit 1 2) xC6).2 gradC6 = none ∧
    reluGradSpec ![![0, 2]] gradC6 = ![![0, 7]] := by
  refine ⟨fun b c s x => rfl, ?_, rfl, ?_⟩
  · funext i j
    fin_cases i <;> fin_cases j <;>
      simp [relu_forward, relu_transform, xC6]
  · funext i j
    fin_cases i <;> fin_cases j <;>
      simp [reluGradSpec, gradC6]

/-! ## sigmoid, linear (net/module.py)

class sigmoid(Activate):
    def transform(self, x):
        self.activation = 1. / (1. + np.exp(-x))
    def backward(self, grad):
        a = self.activation
        p = np.multiply(a, 1. - a)
        return np.multiply(grad, p)

class linear(Activate):
    def transform(self, x):
        self.activation = x
    def backward(self, grad):
        return grad
-/

/-- sigmoid.transform: 1 / (1 + exp(-x)) element-wise. -/
def sigmoid_transform {b c : ℕ} (x : Mat b c) : Mat b c :=
  fun i j => 1 / (1 + Real.exp (-(x i j)))

/-- sigmoid.backward: grad ⊙ a ⊙ (1 - a) on the cached activation a; on
a fresh instance the activation is the explicit None set by
Activate._setup and numpy arithmetic on None raises TypeError, modelled
as none. -/
def sigmoid_backward {b c : ℕ} (a : Option (Mat b c)) (grad : Mat b c) :
    Option (Mat b c) :=
  match a with
  | some act => some (fun i j => grad i j * (act i j * (1 - act i j)))
  | none => none

/-- linear.backward: returns grad, reading no cached state — it
succeeds on any instance, fresh or not. -/
def linear_backward {b c : ℕ} (grad : Mat b c) : Mat b c := grad

/-! ## drop (net/module.py)

class drop(Module):
    def _setup(self, keep_prob = .5):
        self.keep = keep_prob
    def forward(self, x):
        f = x.shape[-1]
        self.r = np.random.binomial(1, self.keep, [1, f])
        return x * self.r / self.keep
    def backward(self, grad):
        grad_mask = grad / self.keep
        return grad_mask * self.r

Only forward assigns self.r, so on a fresh instance backward raises
AttributeError.
-/

/-- drop.backward: (grad / keep) broadcast-multiplied by the cached
[1, f] mask r; none models the AttributeError when no forward has
assigned self.r. -/
def drop_backward {b c : ℕ} (keep : ℝ) (r : Option (Fin c → ℝ))
    (grad : Mat b c) : Option (Mat b c) :=
  match r with
  | some mask => some (fun i j => grad i j / keep * mask j)
  | none => none

/-! ## reshape (net/module.py)

class reshape(Module):
    def _setup(self, shape):
        self.shape = shape
        self.old = None
    def forward(self, x):
        self.old = x.shape
        return x.reshape(self.shape)
    def backward(self, grad):
        return grad.reshape(self.old)

_setup sets self.old = None; on a fresh instance backward therefore
passes None to numpy reshape, which raises TypeError.
-/

/-- Bounds for the row-major index arithmetic of a 2-D reshape. -/
lemma reshape_index_bounds {p q m n : ℕ} (h : m * n = p * q)
    (i : Fin m) (j : Fin n) :
    (i.val * n + j.val) / q < p ∧ (i.val * n + j.val) % q < q := by
  have hi := i.isLt
  have hj := j.isLt
  have hq : 0 < q := by
    rcases Nat.eq_zero_or_pos q with h0 | h0
    · exfalso
      have hmn : m * n = 0 := by rw [h, h0, mul_zero]
      rcases Nat.mul_eq_zero.mp hmn with hm | hn <;> omega
    · exact h0
  have hk : i.val * n + j.val < m * n := by
    have h1 : (i.val + 1) * n = i.val * n + n := by ring
    have h2 : (i.val + 1) * n ≤ m * n := Nat.mul_le_mul_right n hi
    omega
  have hqp : m * n = q * p := by rw [h, mul_comm]
  exact ⟨Nat.div_lt_of_lt_mul (hqp ▸ hk), Nat.mod_lt _ hq⟩

/-- numpy a.reshape(m, n) on a 2-D array: row-major reinterpretation of
the same element values; fails (ShapeMismatch) unless the element
counts agree. -/
def npReshape {p q : ℕ} (g : Mat p q) (m n : ℕ) : Option (Mat m n) :=
  if h : m * n = p * q then
    some (fun i j =>
      g ⟨(i.val * n + j.val) / q, (reshape_index_bounds h i j).1⟩
        ⟨(i.val * n + j.val) % q, (reshape_index_bounds h i j).2⟩)
  else none

/-- reshape.backward: grad.reshape(self.old); none models the TypeError
raised when self.old is still the None set at construction.  The result
carries the recorded shape with the reshaped data. -/
def reshape_backward {p q : ℕ} (old : Option (ℕ × ℕ)) (grad : Mat p q) :
    Option ((m : ℕ) × (n : ℕ) × Mat m n) :=
  match old with
  | some mn => (npReshape grad mn.1 mn.2).map (fun g => ⟨mn.1, mn.2, g⟩)
  | none => none

/-- A concrete incoming gradient for the fresh-backward check. -/
def gradC8 : Mat 1 2 := ![![3, 4]]

/-- C8.  No variant fails with a dedicated InvalidSequence precondition
check when backward runs on a freshly constructed instance; worse,
three variants do not fail at all: linear returns the gradient
unchanged, add_biases reports a bias gradient to the slot and returns
the gradient, and relu silently returns a null gradient (None).  The
remaining variants fail only incidentally — AttributeError or TypeError
from uninitialized cached state, modelled as none. -/
theorem C8_fresh_backward :
    linear_backward gradC8 = gradC8 ∧
    add_biases_backward gradC8 = (![7], gradC8) ∧
    relu_backward (activateInit 1 2) gradC8 = none ∧
    sigmoid_backward (activateInit 1 2).activation gradC8 = none ∧
    softmax_backward (activateInit 1 2).activation gradC8 = none ∧
    matmul_backward (fun _ _ => 1 : Mat 2 2) (matmulInit 1 2 2) gradC8 = none ∧
    drop_backward (1 / 2) none gradC8 = none ∧
    reshape_backward none gradC8 = none ∧
    crossent_cal_grad (crossentInit 1 2) 1 = none ∧
    l2_cal_grad (l2Init 1 2) 1 = none ∧
    sc_cal_grad (scInit 1 2) 1 = none := by
  refine ⟨rfl, ?_, rfl, rfl, rfl, rfl, rfl, rfl, rfl, rfl, rfl⟩
  refine Prod.ext ?_ rfl
  funext i
  fin_cases i
  simp [add_biases_backward, gradC8, Fin.sum_univ_succ]
  norm_num

/-! ## C9: in-place mutation of the caller's input -/

/-- A concrete logits matrix with nonzero row max. -/
def xC9 : Mat 1 2 := ![![1, 2]]

/-- A concrete target for the mutation check. -/
def tC9 : Mat 1 2 := ![![1, 0]]

/-- C9 counterexample: after softmax_crossent computes its loss on the
prediction [[1,2]], the caller's buffer holds [[-1,0]] — the statement
x -= x.max(1, keepdims=True) ran in place — so the prediction tensor
does not hold the element values it held before the forward call. -/
theorem C9_softmax_crossent_mutates :
    (sc_forward (scInit 1 2) xC9 tC9).2.2 ≠ xC9 := by
  intro h
  have hmax : rowMax xC9 0 = 2 := by
    apply le_antisymm
    · apply Finset.sup'_le
      intro j _
      fin_cases j <;> simp [xC9]
    · have hle := Finset.le_sup' (xC9 0) (Finset.mem_univ (1 : Fin 2))
      simpa [xC9, rowMax] using hle
  have h0 := congrFun (congrFun h 0) 0
  simp only [sc_forward, sc_shift] at h0
  rw [hmax] at h0
  simp [xC9] at h0

/-- C9 amended.  Of all embedded variants only softmax_crossent writes
into the caller's input: its forward replaces x in place by x minus the
per-row maximum, so the caller's buffer is unchanged exactly when every
row maximum is already 0. -/
theorem C9_mutation_amended :
    ∀ (b c : ℕ) (x t : Mat b (c + 1)),
      (sc_forward (scInit b (c + 1)) x t).2.2 = sc_shift x ∧
      ((sc_forward (scInit b (c + 1)) x t).2.2 = x ↔ ∀ i, rowMax x i = 0) := by
  intro b c x t
  refine ⟨rfl, ?_, ?_⟩
  · intro h i
    have h0 := congrFun (congrFun h i) 0
    simp only [sc_forward, sc_shift] at h0
    linarith
  · intro h
    funext i j
    simp only [sc_forward, sc_shift, h i, sub_zero]

end Essence
